import Mathlib

/-!
Verification of arpunk/atomvm_adc against its specification.

The single C source under verification is src/nifs/atomvm_adc.c, the
legacy direct-call generation of the driver binding.  Pure helpers
(get_width, get_attenuation, adc_unit_from_pin, get_channel) are
translated directly; nif_adc_take_reading, nif_adc_config_width and
nif_adc_config_channel_attenuation are translated with the external
collaborators (vendor ADC driver, calibration library) supplied as a
mock environment, exactly as the spec scopes them (spec section 1:
"assumed as an opaque capability ... through a narrow contract").

Host memory operations (memory_ensure_free, calloc) are modelled as
succeeding; the out-of-memory error paths are orthogonal to every claim.
C integer division by zero is undefined behaviour (it traps on the
ESP32); it is modelled as the explicit outcome NifResult.ub.

The resource-handle generation that spec sections 4.3-4.6 describe
(open / AdcResource / calibration negotiation / destructor) is code of
this repository which is NOT under src/; where claims depend on it, it
is modelled from the spec's words (definitions marked
"Modelled from the spec").
-/

/-- Erlang term values as far as this binding manipulates them:
integer terms (term_from_int32 / term_to_int) and atoms. -/
inductive TermV where
  | int (n : ℤ)
  | atom (s : String)
deriving DecidableEq, Repr

/-- adc_bits_width_t as used by the source: the four symbolic widths of
the ESP32-classic table branch of get_width plus the ADC_WIDTH_MAX
sentinel returned for an unmatched symbol. -/
inductive AdcBitsWidth where
  | bit9 | bit10 | bit11 | bit12 | widthMax
deriving DecidableEq, Repr

/-- adc_atten_t: the four attenuations of get_attenuation plus the
ADC_ATTEN_MAX sentinel returned for an unmatched symbol. -/
inductive AdcAtten where
  | db0 | db2_5 | db6 | db11 | attenMax
deriving DecidableEq, Repr

/-- adc_unit_t values that occur in the source: ADC_UNIT_1, ADC_UNIT_2
and the ADC_UNIT_MAX sentinel of adc_unit_from_pin's default case. -/
inductive AdcUnitT where
  | unit1 | unit2 | unitMax
deriving DecidableEq, Repr

/-- ADC_CHANNEL_MAX, the adc_channel_t sentinel returned by
get_channel's default case (numerically 10 in the vendor enum; every
valid channel produced by get_channel is between 0 and 9). -/
def ADC_CHANNEL_MAX : ℕ := 10

/-- get_width (src/nifs/atomvm_adc.c lines 77-96, table branch for the
ESP32-classic target): exact atom match against bit_9/bit_10/bit_11/
bit_12, ADC_WIDTH_MAX for anything else.  (The alternate target branch
of the same function ignores the symbol and returns the default width;
the claims concern the per-target symbol-table branch.) -/
def get_width (width : String) : AdcBitsWidth :=
  if width = "bit_9" then .bit9
  else if width = "bit_10" then .bit10
  else if width = "bit_11" then .bit11
  else if width = "bit_12" then .bit12
  else .widthMax

/-- get_attenuation (lines 187-200): exact atom match against
db_0/db_2_5/db_6/db_11, ADC_ATTEN_MAX for anything else. -/
def get_attenuation (attenuation : String) : AdcAtten :=
  if attenuation = "db_0" then .db0
  else if attenuation = "db_2_5" then .db2_5
  else if attenuation = "db_6" then .db6
  else if attenuation = "db_11" then .db11
  else .attenMax

/-- adc_unit_from_pin (lines 98-126).  The ADC2 cases exist only when
CONFIG_AVM_ADC2_ENABLE is set; that compile-time flag is the adc2e
parameter. -/
def adc_unit_from_pin (adc2e : Bool) (p : ℤ) : AdcUnitT :=
  if p = 32 ∨ p = 33 ∨ p = 34 ∨ p = 35 ∨ p = 36 ∨ p = 37 ∨ p = 38 ∨ p = 39 then
    .unit1
  else if adc2e = true ∧
      (p = 0 ∨ p = 2 ∨ p = 4 ∨ p = 12 ∨ p = 13 ∨ p = 14 ∨ p = 15 ∨
       p = 25 ∨ p = 26 ∨ p = 27) then
    .unit2
  else .unitMax

/-- get_channel (lines 202-246): pin to channel index; the default case
returns ADC_CHANNEL_MAX.  The ADC2 cases exist only when
CONFIG_AVM_ADC2_ENABLE is set (parameter adc2e). -/
def get_channel (adc2e : Bool) (p : ℤ) : ℕ :=
  if p = 32 then 4
  else if p = 33 then 5
  else if p = 34 then 6
  else if p = 35 then 7
  else if p = 36 then 0
  else if p = 37 then 1
  else if p = 38 then 2
  else if p = 39 then 3
  else if adc2e = true then
    if p = 0 then 1
    else if p = 2 then 2
    else if p = 4 then 0
    else if p = 12 then 5
    else if p = 13 then 4
    else if p = 14 then 6
    else if p = 15 then 3
    else if p = 25 then 8
    else if p = 26 then 9
    else if p = 27 then 7
    else ADC_CHANNEL_MAX
  else ADC_CHANNEL_MAX

/-- The Unit1 pins of the target (the case labels of
adc_unit_from_pin/get_channel that map to ADC1 channels). -/
def adc1Pins : List ℤ := [32, 33, 34, 35, 36, 37, 38, 39]

/-- The Unit2 pins of the target (the case labels that map to ADC2
channels, compiled only under CONFIG_AVM_ADC2_ENABLE). -/
def adc2Pins : List ℤ := [0, 2, 4, 12, 13, 14, 15, 25, 26, 27]

/-- interop_proplist_get_value_default: walk the options proplist for a
pair whose key matches, returning the attached value, or the supplied
default when no entry matches. -/
def proplist_get_default (l : List (String × TermV)) (key : String) (dflt : TermV) : TermV :=
  match l with
  | [] => dflt
  | (k, v) :: t => if k = key then v else proplist_get_default t key dflt

/-- term_to_int on the samples option value.  The C code applies
term_to_int without validating that the term is an integer; the
embedding denotes a non-integer term by 0 (no claim exercises that
path). -/
def term_to_int : TermV → ℤ
  | .int n => n
  | .atom _ => 0

/-- Conversion of an avm_int_t value to uint32_t, as performed by the
usual arithmetic conversions in `adc_reading /= samples_val`
(uint32_t divided by a signed int operates on the divisor modulo
2^32). -/
def uint32OfInt (s : ℤ) : ℕ := (s % (2 ^ 32 : ℤ)).toNat

/-- Reinterpretation of a uint32_t value as int32_t, as performed when
the accumulated reading is marshalled through term_from_int32. -/
def int32OfUInt32 (n : ℕ) : ℤ :=
  if n < 2 ^ 31 then (n : ℤ) else (n : ℤ) - 2 ^ 32

/-- Mock vendor environment: results of the external driver and
calibration calls made by the legacy generation, per spec section 1
(driver and calibration library are opaque collaborators).  Reads are
indexed by call order at the validated channel. -/
structure Env where
  /-- CONFIG_AVM_ADC2_ENABLE compile-time flag. -/
  adc2Enabled : Bool
  /-- successive values returned by adc1_get_raw. -/
  adc1Read : ℕ → ℕ
  /-- successive results of adc2_get_raw: some raw value, or none for
  ESP_ERR_TIMEOUT (ADC2 held by Wi-Fi), the failure the driver read
  contract exposes. -/
  adc2Read : ℕ → Option ℕ
  /-- esp_err_t result of adc1_config_width (0 = ESP_OK). -/
  adc1ConfigWidthRes : ℤ
  /-- esp_err_t result of adc1_config_channel_atten (0 = ESP_OK). -/
  adc1ConfigAttenRes : ℤ
  /-- esp_err_t result of adc2_config_channel_atten (0 = ESP_OK). -/
  adc2ConfigAttenRes : ℤ
  /-- esp_adc_cal_raw_to_voltage on the averaged reading, for the
  characteristics computed by esp_adc_cal_characterize. -/
  rawToVoltage : ℕ → ℕ

/-- Result of a nif call: the {Raw, Voltage} tuple, a bare atom (the
config nifs return OK_ATOM), an {error, Reason} tuple, or undefined
behaviour (the division by zero at line 437 when samples is 0). -/
inductive NifResult where
  | tuple2 (x y : TermV)
  | atomRes (s : String)
  | errTuple (reason : TermV)
  | ub
deriving DecidableEq, Repr

/-- Accumulation loop of the ADC1 branch (lines 413-415):
adc_reading += adc1_get_raw(channel), on a uint32_t accumulator, for
the remaining iteration count (third argument), reading index i. -/
def adc1_loopAux (read : ℕ → ℕ) (i acc : ℕ) : ℕ → ℕ
  | 0 => acc
  | k + 1 => adc1_loopAux read (i + 1) ((acc + read i) % 2 ^ 32) k

/-- adc1 accumulation over n samples starting from an empty
accumulator. -/
def adc1_loop (read : ℕ → ℕ) (n : ℕ) : ℕ := adc1_loopAux read 0 0 n

/-- Accumulation loop of the ADC2 branch (lines 417-436): each
adc2_get_raw result is checked for ESP_ERR_TIMEOUT, which aborts the
whole call with {error, timeout}; otherwise the sample is accumulated
into the same uint32_t accumulator. -/
def adc2_loopAux (read : ℕ → Option ℕ) (i acc : ℕ) : ℕ → Except TermV ℕ
  | 0 => .ok acc
  | k + 1 =>
    match read i with
    | none => .error (.atom "timeout")
    | some v => adc2_loopAux read (i + 1) ((acc + v) % 2 ^ 32) k

/-- adc2 accumulation over n samples starting from an empty
accumulator. -/
def adc2_loop (read : ℕ → Option ℕ) (n : ℕ) : Except TermV ℕ :=
  adc2_loopAux read 0 0 n

/-- Post-loop tail of nif_adc_take_reading (lines 437-456): the
averaging division `adc_reading /= samples_val` — C undefined
behaviour when the uint32_t divisor is zero, returned as
NifResult.ub — followed by marshalling of the {Raw, Voltage} tuple;
rawOpt and voltOpt are the option values compared against TRUE_ATOM at
lines 440-445, and the voltage value is
esp_adc_cal_raw_to_voltage(adc_reading, adc_chars). -/
def reading_marshal (env : Env) (samples_val : ℤ) (rawOpt voltOpt : TermV)
    (acc : ℕ) : NifResult :=
  if uint32OfInt samples_val = 0 then .ub
  else
    .tuple2
      (if rawOpt = .atom "true" then
         .int (int32OfUInt32 (acc / uint32OfInt samples_val))
       else .atom "undefined")
      (if voltOpt = .atom "true" then
         .int (int32OfUInt32 (env.rawToVoltage (acc / uint32OfInt samples_val)))
       else .atom "undefined")

/-- Core of nif_adc_take_reading after pin/width/attenuation
resolution (lines 387-456): the per-unit sampling loop — the ADC1
branch first re-runs adc1_config_width, whose failure is returned as
{error, invalid_width}, and the ADC2 branch can abort with
{error, timeout} — followed by the division and marshalling tail.
When the unit is neither (unreachable for a validated channel) the
accumulator stays 0 and the tail still runs, as in the source. -/
def take_reading_core (env : Env) (adc_unit : AdcUnitT) (_channel : ℕ)
    (samples_val : ℤ) (rawOpt voltOpt : TermV) : NifResult :=
  if adc_unit = .unit1 then
    if env.adc1ConfigWidthRes ≠ 0 then .errTuple (.atom "invalid_width")
    else
      reading_marshal env samples_val rawOpt voltOpt
        (adc1_loop env.adc1Read samples_val.toNat)
  else if env.adc2Enabled = true ∧ adc_unit = .unit2 then
    match adc2_loop env.adc2Read samples_val.toNat with
    | .error e => .errTuple e
    | .ok acc => reading_marshal env samples_val rawOpt voltOpt acc
  else reading_marshal env samples_val rawOpt voltOpt 0

/-- nif_adc_take_reading (lines 326-457): validate the pin via
get_channel, read the samples/raw/voltage options with their defaults
(DEFAULT_SAMPLES = 64, FALSE_ATOM, FALSE_ATOM), validate width and
attenuation, then run the per-unit sampling core. -/
def nif_adc_take_reading (env : Env) (pin : ℤ)
    (read_options : List (String × TermV)) (width atten : String) : NifResult :=
  if get_channel env.adc2Enabled pin = ADC_CHANNEL_MAX then
    .errTuple (.atom "invalid_pin")
  else if get_width width = .widthMax then .errTuple (.atom "invalid_width")
  else if get_attenuation atten = .attenMax then .errTuple (.atom "invalid_db")
  else
    take_reading_core env (adc_unit_from_pin env.adc2Enabled pin)
      (get_channel env.adc2Enabled pin)
      (term_to_int (proplist_get_default read_options "samples" (.int 64)))
      (proplist_get_default read_options "raw" (.atom "false"))
      (proplist_get_default read_options "voltage" (.atom "false"))

/-- nif_adc_config_width (lines 128-185): validate the pin via
adc_unit_from_pin, validate the width symbol (unmatched symbol is the
hard error invalid_width), then configure ADC1's width when the pin is
a Unit1 pin (a driver failure is returned as {error, ErrCode}). -/
def nif_adc_config_width (env : Env) (pin : ℤ) (width : String) : NifResult :=
  if adc_unit_from_pin env.adc2Enabled pin = .unitMax then
    .errTuple (.atom "invalid_pin")
  else if get_width width = .widthMax then .errTuple (.atom "invalid_width")
  else if adc_unit_from_pin env.adc2Enabled pin = .unit1 then
    if env.adc1ConfigWidthRes ≠ 0 then .errTuple (.int env.adc1ConfigWidthRes)
    else .atomRes "ok"
  else .atomRes "ok"

/-- nif_adc_config_channel_attenuation (lines 248-313): validate the
pin via get_channel, validate the attenuation symbol (unmatched symbol
is the hard error invalid_db), then configure the channel's
attenuation on the pin's unit. -/
def nif_adc_config_channel_attenuation (env : Env) (pin : ℤ)
    (atten : String) : NifResult :=
  if get_channel env.adc2Enabled pin = ADC_CHANNEL_MAX then
    .errTuple (.atom "invalid_pin")
  else if get_attenuation atten = .attenMax then .errTuple (.atom "invalid_db")
  else if adc_unit_from_pin env.adc2Enabled pin = .unit1 then
    if env.adc1ConfigAttenRes ≠ 0 then .errTuple (.int env.adc1ConfigAttenRes)
    else .atomRes "ok"
  else if env.adc2Enabled = true ∧ adc_unit_from_pin env.adc2Enabled pin = .unit2 then
    if env.adc2ConfigAttenRes ≠ 0 then .errTuple (.int env.adc2ConfigAttenRes)
    else .atomRes "ok"
  else .atomRes "ok"

/-- Sum of k successive mock samples starting at index i. -/
def sumFrom (f : ℕ → ℕ) (i : ℕ) : ℕ → ℕ
  | 0 => 0
  | k + 1 => f i + sumFrom f (i + 1) k

/-- Sum of the first n mock samples. -/
def sumF (f : ℕ → ℕ) (n : ℕ) : ℕ := sumFrom f 0 n

/-- Convenience mock environment: ADC2 disabled, all driver
configuration calls succeed, adc1 samples supplied by reads. -/
def mkEnv1 (reads : ℕ → ℕ) : Env :=
  { adc2Enabled := false
    adc1Read := reads
    adc2Read := fun _ => some 0
    adc1ConfigWidthRes := 0
    adc1ConfigAttenRes := 0
    adc2ConfigAttenRes := 0
    rawToVoltage := fun _ => 0 }

/-!
Resource-handle generation, modelled from the spec.  The repository's
resource-handle generation (open / AdcResource / calibration
negotiation / take_reading over a resource / destructor) is not under
src/; the following definitions are modelled from the spec's words
(sections 3, 4.3, 4.5, 4.6, 5, 8) and are used only for the claims that
depend on that generation.
-/

/-- Modelled from the spec: errors of the Reading Aggregator contract
(section 7 taxonomy, restricted to the errors section 4.5 can raise). -/
inductive SpecErr where
  | readError
  | calibrationError
  | invalidArgument
deriving DecidableEq, Repr

/-- Modelled from the spec: result of takeReading in the resource
generation, a pair of raw/voltage values (integer or the undefined
marker) or a tagged error. -/
inductive SpecResult where
  | okR (raw voltage : TermV)
  | errR (e : SpecErr)
deriving DecidableEq, Repr

/-- Modelled from the spec (section 3): the AdcResource fields the
Reading Aggregator consults — the resolved channel, per-unit
CalibrationState.active flags, and whether the second converter unit is
enabled by the build target. -/
structure SpecResource where
  channel : ℕ
  cal1Active : Bool
  unit2Enabled : Bool
  cal2Active : Bool
deriving DecidableEq, Repr

/-- Modelled from the spec (sections 1 and 6): mock collaborators of the
resource generation — per-unit driver reads (raw value or read error)
and per-unit calibration conversions (millivolts or conversion
failure), indexed by call order. -/
structure SpecEnv where
  unit1Read : ℕ → Option ℕ
  unit2Read : ℕ → Option ℕ
  cal1 : ℕ → Option ℕ
  cal2 : ℕ → Option ℕ

/-- Modelled from the spec (section 3): ReadingOptions. -/
structure SpecOptions where
  samples : ℤ
  wantRaw : Bool
  wantVoltage : Bool

/-- Modelled from the spec (section 4.5): one per-unit sample step —
read one raw sample (a read failure aborts with ReadError), accumulate
it into the raw sum; when conversion is wanted and the unit's
calibration is active, convert it to millivolts (a conversion failure
aborts with CalibrationError) and accumulate into the voltage sum. -/
def sampleStep (read : Option ℕ) (conv : ℕ → Option ℕ) (doConv : Bool)
    (rawSum voltSum : ℕ) : Except SpecErr (ℕ × ℕ) :=
  match read with
  | none => .error .readError
  | some v =>
    if doConv then
      match conv v with
      | none => .error .calibrationError
      | some mv => .ok (rawSum + v, voltSum + mv)
    else .ok (rawSum + v, voltSum)

/-- Modelled from the spec (section 4.5): the sampling loop — per
iteration, a Unit1 sample step, then, when the build enables Unit2, a
Unit2 sample step into the same running sums; the last argument is the
remaining iteration count. -/
def specAggLoop (env : SpecEnv) (res : SpecResource) (wantV : Bool)
    (i rawSum voltSum : ℕ) : ℕ → Except SpecErr (ℕ × ℕ)
  | 0 => .ok (rawSum, voltSum)
  | k + 1 =>
    match sampleStep (env.unit1Read i) env.cal1 (wantV && res.cal1Active)
        rawSum voltSum with
    | .error e => .error e
    | .ok (r1, v1) =>
      if res.unit2Enabled then
        match sampleStep (env.unit2Read i) env.cal2 (wantV && res.cal2Active)
            r1 v1 with
        | .error e => .error e
        | .ok (r2, v2) => specAggLoop env res wantV (i + 1) r2 v2 k
      else specAggLoop env res wantV (i + 1) r1 v1 k

/-- Modelled from the spec (sections 4.5 and 8): takeReading of the
resource generation.  samples ≤ 0 is the contract violation
InvalidArgument; otherwise the loop accumulates raw (and, when wanted
and active, voltage) sums, the averages are integer divisions by the
sample count, the raw value is output only when wantRaw (else the
undefined marker), and the voltage value is output only when
wantVoltage and calibration is active for a contributing unit — a unit
degraded to inactive contributes voltage undefined rather than a
failure. -/
def takeReadingSpec (env : SpecEnv) (res : SpecResource)
    (opts : SpecOptions) : SpecResult :=
  if opts.samples ≤ 0 then .errR .invalidArgument
  else
    match specAggLoop env res opts.wantVoltage 0 0 0 opts.samples.toNat with
    | .error e => .errR e
    | .ok (rawSum, voltSum) =>
      .okR
        (if opts.wantRaw then .int (rawSum / opts.samples.toNat)
         else .atom "undefined")
        (if opts.wantVoltage &&
            (res.cal1Active || (res.unit2Enabled && res.cal2Active)) then
           .int (voltSum / opts.samples.toNat)
         else .atom "undefined")

/-- Modelled from the spec (section 4.6): the release calls the
destructor can make, per unit. -/
inductive ReleaseEvent where
  | delUnit1
  | delScheme1
  | delUnit2
  | delScheme2
deriving DecidableEq, Repr

/-- Occurrence count of a release event in a release trace. -/
def countE (e : ReleaseEvent) : List ReleaseEvent → ℕ
  | [] => 0
  | x :: t => (if x = e then 1 else 0) + countE e t

/-- Modelled from the spec (section 4.6): the destructor's release
sequence — release Unit1's driver session; if Unit1's CalibrationState
was active, release its calibration scheme; repeat both steps for
Unit2 if enabled.  The active flag structurally guards each scheme
release. -/
def adc_resource_dtor (res : SpecResource) : List ReleaseEvent :=
  [.delUnit1]
  ++ (if res.cal1Active then [.delScheme1] else [])
  ++ (if res.unit2Enabled then
        [.delUnit2] ++ (if res.cal2Active then [.delScheme2] else [])
      else [])

/-- Modelled from the spec (sections 3 and 5): host-runtime reference
counting operations visible to a resource — taking a new reference, or
releasing one. -/
inductive RcOp where
  | keep
  | release
deriving DecidableEq, Repr

/-- Reference-count state of one resource: current count and how many
times its destructor has fired. -/
structure RcState where
  rc : ℕ
  fired : ℕ
deriving DecidableEq, Repr

/-- Modelled from the spec (sections 3 and 5): one refcount step — the
destructor fires exactly at the transition of the count to zero; a dead
resource (count zero) receives no further transitions. -/
def rcStep (s : RcState) : RcOp → RcState
  | .keep => if s.rc = 0 then s else { rc := s.rc + 1, fired := s.fired }
  | .release =>
    if s.rc = 0 then s
    else { rc := s.rc - 1
           fired := if s.rc = 1 then s.fired + 1 else s.fired }

/-- Refcount history of a resource created by a successful open
(initial count 1, destructor not yet fired). -/
def runRc (ops : List RcOp) : RcState :=
  ops.foldl rcStep { rc := 1, fired := 0 }

/-- Release calls made over a resource's whole lifetime: the
destructor's sequence when it has fired, nothing before. -/
def lifecycle_releases (ops : List RcOp) (res : SpecResource) :
    List ReleaseEvent :=
  if (runRc ops).fired = 0 then [] else adc_resource_dtor res

/-!
Helper lemmas.
-/

theorem sumFrom_succ (f : ℕ → ℕ) (i k : ℕ) :
    sumFrom f i (k + 1) = f i + sumFrom f (i + 1) k := rfl

theorem adc1_loopAux_eq (read : ℕ → ℕ) :
    ∀ (k i acc : ℕ), acc < 2 ^ 32 →
      adc1_loopAux read i acc k = (acc + sumFrom read i k) % 2 ^ 32 := by
  intro k
  induction k with
  | zero =>
    intro i acc hacc
    simp only [adc1_loopAux, sumFrom, Nat.add_zero]
    omega
  | succ k ih =>
    intro i acc hacc
    have hlt : (acc + read i) % 2 ^ 32 < 2 ^ 32 :=
      Nat.mod_lt _ (by norm_num)
    calc adc1_loopAux read i acc (k + 1)
        = adc1_loopAux read (i + 1) ((acc + read i) % 2 ^ 32) k := rfl
      _ = ((acc + read i) % 2 ^ 32 + sumFrom read (i + 1) k) % 2 ^ 32 :=
          ih (i + 1) _ hlt
      _ = (acc + read i + sumFrom read (i + 1) k) % 2 ^ 32 :=
          Nat.mod_add_mod _ _ _
      _ = (acc + sumFrom read i (k + 1)) % 2 ^ 32 := by
          rw [sumFrom_succ]; ring_nf

theorem adc1_loop_eq (read : ℕ → ℕ) (n : ℕ) :
    adc1_loop read n = sumF read n % 2 ^ 32 := by
  have h := adc1_loopAux_eq read n 0 0 (by norm_num)
  simpa [adc1_loop, sumF] using h

theorem adc2_loopAux_error (read : ℕ → Option ℕ) :
    ∀ (k i acc : ℕ), (∃ j, j < k ∧ read (i + j) = none) →
      adc2_loopAux read i acc k = .error (.atom "timeout") := by
  intro k
  induction k with
  | zero =>
    intro i acc h
    obtain ⟨j, hj, _⟩ := h
    omega
  | succ k ih =>
    intro i acc h
    obtain ⟨j, hj, hnone⟩ := h
    match hr : read i with
    | none => simp [adc2_loopAux, hr]
    | some v =>
      have hj0 : j ≠ 0 := by
        intro h0
        rw [h0, Nat.add_zero] at hnone
        rw [hr] at hnone
        exact Option.noConfusion hnone
      obtain ⟨j', rfl⟩ := Nat.exists_eq_succ_of_ne_zero hj0
      have : read (i + 1 + j') = none := by
        have : i + 1 + j' = i + (j' + 1) := by omega
        rw [this]; exact hnone
      simp only [adc2_loopAux, hr]
      exact ih (i + 1) _ ⟨j', by omega, this⟩

theorem uint32OfInt_coe (n : ℕ) (h : n < 2 ^ 32) :
    uint32OfInt (n : ℤ) = n := by
  unfold uint32OfInt
  rw [Int.emod_eq_of_lt (by exact_mod_cast Nat.zero_le n)
      (by exact_mod_cast h)]
  exact Int.toNat_natCast n

theorem int32OfUInt32_of_lt (n : ℕ) (h : n < 2 ^ 31) :
    int32OfUInt32 n = (n : ℤ) := by
  unfold int32OfUInt32
  rw [if_pos h]

theorem get_channel_ne_max_of_unit1 (e : Bool) (p : ℤ)
    (h : adc_unit_from_pin e p = .unit1) :
    get_channel e p ≠ ADC_CHANNEL_MAX := by
  unfold adc_unit_from_pin at h
  by_cases h1 :
      p = 32 ∨ p = 33 ∨ p = 34 ∨ p = 35 ∨ p = 36 ∨ p = 37 ∨ p = 38 ∨ p = 39
  · rcases h1 with rfl | rfl | rfl | rfl | rfl | rfl | rfl | rfl <;>
      simp [get_channel, ADC_CHANNEL_MAX]
  · rw [if_neg h1] at h
    split at h <;> exact AdcUnitT.noConfusion h

theorem get_channel_ne_max_of_unit2 (p : ℤ)
    (h : adc_unit_from_pin true p = .unit2) :
    get_channel true p ≠ ADC_CHANNEL_MAX := by
  unfold adc_unit_from_pin at h
  by_cases h1 :
      p = 32 ∨ p = 33 ∨ p = 34 ∨ p = 35 ∨ p = 36 ∨ p = 37 ∨ p = 38 ∨ p = 39
  · rw [if_pos h1] at h
    exact absurd h (by simp)
  · rw [if_neg h1] at h
    by_cases h2 :
        (true = true) ∧
        (p = 0 ∨ p = 2 ∨ p = 4 ∨ p = 12 ∨ p = 13 ∨ p = 14 ∨ p = 15 ∨
         p = 25 ∨ p = 26 ∨ p = 27)
    · push_neg at h1
      obtain ⟨h32, h33, h34, h35, h36, h37, h38, h39⟩ := h1
      rcases h2.2 with rfl | rfl | rfl | rfl | rfl | rfl | rfl | rfl | rfl | rfl <;>
        simp [get_channel, ADC_CHANNEL_MAX]
    · rw [if_neg h2] at h
      exact AdcUnitT.noConfusion h

theorem proplist_get_default_absent (l : List (String × TermV)) (key : String)
    (dflt : TermV) (h : key ∉ l.map Prod.fst) :
    proplist_get_default l key dflt = dflt := by
  induction l with
  | nil => rfl
  | cons x t ih =>
    simp only [List.map_cons, List.mem_cons] at h
    push_neg at h
    obtain ⟨hk, ht⟩ := h
    obtain ⟨k, v⟩ := x
    simp only [proplist_get_default]
    rw [if_neg (by simpa using fun hkk => hk hkk.symm)]
    exact ih ht

theorem take_reading_unit1_eval (env : Env) (pin : ℤ)
    (opts : List (String × TermV)) (w a : String) (n : ℕ)
    (hu : adc_unit_from_pin env.adc2Enabled pin = .unit1)
    (hw : get_width w ≠ .widthMax)
    (ha : get_attenuation a ≠ .attenMax)
    (hcfg : env.adc1ConfigWidthRes = 0)
    (hs : term_to_int (proplist_get_default opts "samples" (.int 64)) = (n : ℤ))
    (hn : 1 ≤ n) (hn32 : n < 2 ^ 32) :
    nif_adc_take_reading env pin opts w a =
      .tuple2
        (if proplist_get_default opts "raw" (.atom "false") = .atom "true" then
           .int (int32OfUInt32 (sumF env.adc1Read n % 2 ^ 32 / n))
         else .atom "undefined")
        (if proplist_get_default opts "voltage" (.atom "false") = .atom "true" then
           .int (int32OfUInt32 (env.rawToVoltage (sumF env.adc1Read n % 2 ^ 32 / n)))
         else .atom "undefined") := by
  unfold nif_adc_take_reading
  rw [if_neg (get_channel_ne_max_of_unit1 _ _ hu), if_neg hw, if_neg ha, hu, hs]
  unfold take_reading_core
  rw [if_pos rfl, if_neg (by rw [hcfg]; exact fun h => h rfl)]
  have htn : ((n : ℤ)).toNat = n := Int.toNat_natCast n
  have hu32 : uint32OfInt (n : ℤ) = n := uint32OfInt_coe n hn32
  unfold reading_marshal
  rw [hu32, htn, if_neg (by omega), adc1_loop_eq]

/-- Mock adc1 sample sequence whose 32-bit accumulated sum wraps:
every read returns 2147483647 (INT32_MAX, the largest value
adc1_get_raw's int return type can carry). -/
def wrapReads : ℕ → ℕ := fun _ => 2147483647

/-- C1 (amended): for every sample count N with 1 <= N < 2^31 and every
sequence of N driver samples whose sum is below 2^31, take_reading with
raw requested returns a raw result equal to the truncated integer
quotient of the sum of the N samples divided by N; in particular with
N = 1 the result equals the single sample exactly, with samples
[10,20,30,40] it is 25, and with [10,20,30,31] it is 22.  (The sum
bound is forced by the code: the sum is accumulated in a uint32_t, so
it is computed modulo 2^32, and the average is marshalled through a
signed 32-bit conversion.) -/
theorem adc_take_reading_raw_average :
    (∀ (env : Env) (pin : ℤ) (opts : List (String × TermV)) (w a : String)
       (n : ℕ),
       adc_unit_from_pin env.adc2Enabled pin = .unit1 →
       get_width w ≠ .widthMax →
       get_attenuation a ≠ .attenMax →
       env.adc1ConfigWidthRes = 0 →
       term_to_int (proplist_get_default opts "samples" (.int 64)) = (n : ℤ) →
       1 ≤ n → n < 2 ^ 31 →
       proplist_get_default opts "raw" (.atom "false") = .atom "true" →
       sumF env.adc1Read n < 2 ^ 31 →
       ∃ vt, nif_adc_take_reading env pin opts w a =
         .tuple2 (.int (sumF env.adc1Read n / n)) vt) ∧
    nif_adc_take_reading (mkEnv1 fun i => [10, 20, 30, 40].getD i 0) 32
      [("samples", .int 4), ("raw", .atom "true")] "bit_12" "db_0" =
      .tuple2 (.int 25) (.atom "undefined") ∧
    nif_adc_take_reading (mkEnv1 fun i => [10, 20, 30, 31].getD i 0) 32
      [("samples", .int 4), ("raw", .atom "true")] "bit_12" "db_0" =
      .tuple2 (.int 22) (.atom "undefined") ∧
    nif_adc_take_reading (mkEnv1 fun _ => 3333) 32
      [("samples", .int 1), ("raw", .atom "true")] "bit_12" "db_0" =
      .tuple2 (.int 3333) (.atom "undefined") := by
  refine ⟨?_, by decide, by decide, by decide⟩
  intro env pin opts w a n hu hw ha hcfg hs hn hn31 hraw hsum
  have h32 : sumF env.adc1Read n < 2 ^ 32 :=
    lt_trans hsum (by norm_num)
  have h := take_reading_unit1_eval env pin opts w a n hu hw ha hcfg hs hn
    (lt_trans hn31 (by norm_num))
  rw [if_pos hraw, Nat.mod_eq_of_lt h32,
      int32OfUInt32_of_lt _ (lt_of_le_of_lt (Nat.div_le_self _ _) hsum)] at h
  exact ⟨_, h⟩

/-- Witness for C1: the [10,20,30,40] instance of the amended theorem,
with every hypothesis discharged concretely. -/
theorem adc_take_reading_raw_average_witness :
    ∃ vt, nif_adc_take_reading (mkEnv1 fun i => [10, 20, 30, 40].getD i 0) 32
        [("samples", TermV.int 4), ("raw", TermV.atom "true")] "bit_12" "db_0" =
      .tuple2 (.int (sumF (fun i => [10, 20, 30, 40].getD i 0) 4 / 4)) vt :=
  adc_take_reading_raw_average.1 (mkEnv1 fun i => [10, 20, 30, 40].getD i 0) 32
    [("samples", TermV.int 4), ("raw", TermV.atom "true")] "bit_12" "db_0" 4
    (by decide) (by decide) (by decide) (by decide) (by decide) (by decide)
    (by decide) (by decide) (by decide)

/-- Counterexample to C1 as stated: three driver samples of 2147483647
(INT32_MAX) have truncated mean 2147483647, but take_reading returns
715827881, because the uint32_t accumulator wraps at 2^32. -/
theorem adc_take_reading_raw_average_cex :
    nif_adc_take_reading (mkEnv1 wrapReads) 32
      [("samples", TermV.int 3), ("raw", TermV.atom "true")] "bit_12" "db_0" =
      .tuple2 (.int 715827881) (.atom "undefined") ∧
    sumF wrapReads 3 / 3 = 2147483647 ∧
    (715827881 : ℤ) ≠ (2147483647 : ℤ) := by
  refine ⟨by decide, by decide, by decide⟩

/-- C10: the raw-sample sum in take_reading is accumulated in a 32-bit
unsigned accumulator, so the reported average is the mod-2^32 sum
divided by the sample count (marshalled through a signed 32-bit
conversion); concretely, three samples of 2147483647 sum to 6442450941,
wrap to 2147483645, and yield average 715827881 instead of the true
arithmetic mean 2147483647. -/
theorem adc_take_reading_sum_mod_2_32 :
    (∀ (env : Env) (pin : ℤ) (opts : List (String × TermV)) (w a : String)
       (n : ℕ),
       adc_unit_from_pin env.adc2Enabled pin = .unit1 →
       get_width w ≠ .widthMax →
       get_attenuation a ≠ .attenMax →
       env.adc1ConfigWidthRes = 0 →
       term_to_int (proplist_get_default opts "samples" (.int 64)) = (n : ℤ) →
       1 ≤ n → n < 2 ^ 31 →
       proplist_get_default opts "raw" (.atom "false") = .atom "true" →
       ∃ vt, nif_adc_take_reading env pin opts w a =
         .tuple2 (.int (int32OfUInt32 (sumF env.adc1Read n % 2 ^ 32 / n))) vt) ∧
    sumF wrapReads 3 = 6442450941 ∧
    sumF wrapReads 3 % 2 ^ 32 = 2147483645 ∧
    nif_adc_take_reading (mkEnv1 wrapReads) 32
      [("samples", TermV.int 3), ("raw", TermV.atom "true")] "bit_12" "db_0" =
      .tuple2 (.int 715827881) (.atom "undefined") ∧
    715827881 ≠ sumF wrapReads 3 / 3 := by
  refine ⟨?_, by decide, by decide, by decide, by decide⟩
  intro env pin opts w a n hu hw ha hcfg hs hn hn31 hraw
  have h := take_reading_unit1_eval env pin opts w a n hu hw ha hcfg hs hn
    (lt_trans hn31 (by norm_num))
  rw [if_pos hraw] at h
  exact ⟨_, h⟩

/-- Witness for C10: the general modulo-2^32 characterisation applied
to the wrapping three-sample run. -/
theorem adc_take_reading_sum_mod_2_32_witness :
    ∃ vt, nif_adc_take_reading (mkEnv1 wrapReads) 32
        [("samples", TermV.int 3), ("raw", TermV.atom "true")] "bit_12" "db_0" =
      .tuple2 (.int (int32OfUInt32 (sumF wrapReads 3 % 2 ^ 32 / 3))) vt :=
  adc_take_reading_sum_mod_2_32.1 (mkEnv1 wrapReads) 32
    [("samples", TermV.int 3), ("raw", TermV.atom "true")] "bit_12" "db_0" 3
    (by decide) (by decide) (by decide) (by decide) (by decide) (by decide)
    (by decide) (by decide)

/-- C3 (code evaluation at the failing input): nif_adc_take_reading
never validates the samples option.  With samples = 0 the sampling loop
performs zero driver reads and the call then executes
`adc_reading /= samples_val` with a zero divisor — C undefined
behaviour (modelled as NifResult.ub), not the {error, invalid_argument}
the claim requires.  With a negative count the call even returns a
normal result (raw 0) instead of failing. -/
theorem adc_take_reading_zero_samples_div_by_zero :
    nif_adc_take_reading (mkEnv1 fun _ => 0) 32
      [("samples", TermV.int 0)] "bit_12" "db_0" = .ub ∧
    nif_adc_take_reading (mkEnv1 fun _ => 0) 32
      [("samples", TermV.int (-3)), ("raw", TermV.atom "true")] "bit_12"
      "db_0" = .tuple2 (.int 0) (.atom "undefined") := by
  exact ⟨by decide, by decide⟩

/-- C5: in every sampling run whose driver reads can fail (the ADC2
branch; adc2_get_raw is the only read the driver contract lets fail,
with ESP_ERR_TIMEOUT), a failure of any single read within the
requested sample count aborts the whole call immediately with the
{error, timeout} read error: no averaged value is returned and the
partially accumulated sum is discarded. -/
theorem adc2_read_failure_aborts :
    ∀ (env : Env) (pin : ℤ) (opts : List (String × TermV)) (w a : String)
      (n : ℕ),
      env.adc2Enabled = true →
      adc_unit_from_pin true pin = .unit2 →
      get_width w ≠ .widthMax →
      get_attenuation a ≠ .attenMax →
      term_to_int (proplist_get_default opts "samples" (.int 64)) = (n : ℤ) →
      (∃ i, i < n ∧ env.adc2Read i = none) →
      nif_adc_take_reading env pin opts w a = .errTuple (.atom "timeout") := by
  intro env pin opts w a n he hu hw ha hs hex
  unfold nif_adc_take_reading
  rw [he, if_neg (get_channel_ne_max_of_unit2 pin hu), if_neg hw, if_neg ha,
      hu, hs]
  unfold take_reading_core
  rw [he, if_neg (show ¬(AdcUnitT.unit2 = .unit1) by decide),
      if_pos (show (true = true) ∧ (AdcUnitT.unit2 = .unit2) from ⟨rfl, rfl⟩),
      Int.toNat_natCast]
  have hloop : adc2_loop env.adc2Read n = .error (.atom "timeout") := by
    obtain ⟨i, hi, hnone⟩ := hex
    exact adc2_loopAux_error env.adc2Read n 0 0 ⟨i, hi, by simpa using hnone⟩
  rw [hloop]

/-- Mock environment for a forced ADC2 read failure: the read at sample
index 2 times out, every other read returns 100. -/
def adc2FailEnv : Env :=
  { adc2Enabled := true
    adc1Read := fun _ => 0
    adc2Read := fun i => if i = 2 then none else some 100
    adc1ConfigWidthRes := 0
    adc1ConfigAttenRes := 0
    adc2ConfigAttenRes := 0
    rawToVoltage := fun _ => 0 }

/-- Witness for C5: a forced read failure at sample index 2 of 5 on pin
4 (an ADC2 pin) aborts with {error, timeout}. -/
theorem adc2_read_failure_aborts_witness :
    nif_adc_take_reading adc2FailEnv 4 [("samples", TermV.int 5)] "bit_12"
      "db_0" = .errTuple (.atom "timeout") :=
  adc2_read_failure_aborts adc2FailEnv 4 [("samples", TermV.int 5)] "bit_12"
    "db_0" 5 rfl (by decide) (by decide) (by decide) (by decide)
    ⟨2, by omega, rfl⟩

/-- C6: every pin outside the Unit1/Unit2 pin sets of the target
resolves to ADC_CHANNEL_MAX (never silently to channel 0) and to
ADC_UNIT_MAX, and every operation on it fails with the unsupported-pin
error {error, invalid_pin} — never with a driver error, whatever the
mock driver would return. -/
theorem unsupported_pin_fails_closed :
    ∀ (env : Env) (pin : ℤ) (opts : List (String × TermV)) (w a : String),
      pin ∉ adc1Pins →
      (env.adc2Enabled = true → pin ∉ adc2Pins) →
      get_channel env.adc2Enabled pin = ADC_CHANNEL_MAX ∧
      get_channel env.adc2Enabled pin ≠ 0 ∧
      adc_unit_from_pin env.adc2Enabled pin = .unitMax ∧
      nif_adc_take_reading env pin opts w a = .errTuple (.atom "invalid_pin") ∧
      nif_adc_config_width env pin w = .errTuple (.atom "invalid_pin") ∧
      nif_adc_config_channel_attenuation env pin a =
        .errTuple (.atom "invalid_pin") := by
  intro env pin opts w a h1 h2
  have hd1 : ¬(pin = 32 ∨ pin = 33 ∨ pin = 34 ∨ pin = 35 ∨ pin = 36 ∨
      pin = 37 ∨ pin = 38 ∨ pin = 39) := by
    intro hc
    rcases hc with rfl | rfl | rfl | rfl | rfl | rfl | rfl | rfl <;>
      exact h1 (by decide)
  have hd2 : env.adc2Enabled = true →
      ¬(pin = 0 ∨ pin = 2 ∨ pin = 4 ∨ pin = 12 ∨ pin = 13 ∨ pin = 14 ∨
        pin = 15 ∨ pin = 25 ∨ pin = 26 ∨ pin = 27) := by
    intro he hc
    rcases hc with rfl | rfl | rfl | rfl | rfl | rfl | rfl | rfl | rfl | rfl <;>
      exact h2 he (by decide)
  obtain ⟨h32, h33, h34, h35, h36, h37, h38, h39⟩ :
      pin ≠ 32 ∧ pin ≠ 33 ∧ pin ≠ 34 ∧ pin ≠ 35 ∧ pin ≠ 36 ∧ pin ≠ 37 ∧
      pin ≠ 38 ∧ pin ≠ 39 := by
    push_neg at hd1
    exact hd1
  have hch : get_channel env.adc2Enabled pin = ADC_CHANNEL_MAX := by
    unfold get_channel
    rw [if_neg h32, if_neg h33, if_neg h34, if_neg h35, if_neg h36,
        if_neg h37, if_neg h38, if_neg h39]
    cases he : env.adc2Enabled with
    | false => rw [if_neg (by simp)]
    | true =>
      obtain ⟨k0, k2, k4, k12, k13, k14, k15, k25, k26, k27⟩ :
          pin ≠ 0 ∧ pin ≠ 2 ∧ pin ≠ 4 ∧ pin ≠ 12 ∧ pin ≠ 13 ∧ pin ≠ 14 ∧
          pin ≠ 15 ∧ pin ≠ 25 ∧ pin ≠ 26 ∧ pin ≠ 27 := by
        have := hd2 he
        push_neg at this
        exact this
      rw [if_pos rfl, if_neg k0, if_neg k2, if_neg k4, if_neg k12,
          if_neg k13, if_neg k14, if_neg k15, if_neg k25, if_neg k26,
          if_neg k27]
  have hunit : adc_unit_from_pin env.adc2Enabled pin = .unitMax := by
    unfold adc_unit_from_pin
    rw [if_neg hd1]
    cases he : env.adc2Enabled with
    | false => rw [if_neg (fun hc => Bool.false_ne_true hc.1)]
    | true => rw [if_neg (fun hc => hd2 he hc.2)]
  refine ⟨hch, by rw [hch]; decide, hunit, ?_, ?_, ?_⟩
  · unfold nif_adc_take_reading
    rw [if_pos hch]
  · unfold nif_adc_config_width
    rw [if_pos hunit]
  · unfold nif_adc_config_channel_attenuation
    rw [if_pos hch]

/-- Witness for C6: pin 5 is outside both pin sets of the
ADC2-enabled target; resolution yields the sentinels and all three
operations fail with {error, invalid_pin}. -/
theorem unsupported_pin_fails_closed_witness :
    get_channel adc2FailEnv.adc2Enabled 5 = ADC_CHANNEL_MAX ∧
    get_channel adc2FailEnv.adc2Enabled 5 ≠ 0 ∧
    adc_unit_from_pin adc2FailEnv.adc2Enabled 5 = .unitMax ∧
    nif_adc_take_reading adc2FailEnv 5 [] "bit_12" "db_0" =
      .errTuple (.atom "invalid_pin") ∧
    nif_adc_config_width adc2FailEnv 5 "bit_12" =
      .errTuple (.atom "invalid_pin") ∧
    nif_adc_config_channel_attenuation adc2FailEnv 5 "db_0" =
      .errTuple (.atom "invalid_pin") :=
  unsupported_pin_fails_closed adc2FailEnv 5 [] "bit_12" "db_0" (by decide)
    (fun _ => by decide)

theorem get_width_unmatched (w : String)
    (h : w ∉ ["bit_9", "bit_10", "bit_11", "bit_12"]) :
    get_width w = .widthMax := by
  simp only [List.mem_cons, List.not_mem_nil, or_false, not_or] at h
  obtain ⟨h9, h10, h11, h12⟩ := h
  unfold get_width
  rw [if_neg h9, if_neg h10, if_neg h11, if_neg h12]

theorem get_attenuation_unmatched (a : String)
    (h : a ∉ ["db_0", "db_2_5", "db_6", "db_11"]) :
    get_attenuation a = .attenMax := by
  simp only [List.mem_cons, List.not_mem_nil, or_false, not_or] at h
  obtain ⟨h0, h25, h6, h11⟩ := h
  unfold get_attenuation
  rw [if_neg h0, if_neg h25, if_neg h6, if_neg h11]

/-- C8: in the direct-call generation, a width symbol outside the
symbol table resolves to ADC_WIDTH_MAX and makes the operations fail
with the explicit error {error, invalid_width}, and an attenuation
symbol outside the table resolves to ADC_ATTEN_MAX and makes them fail
with {error, invalid_db} — never a silent fallback to a default enum
value. -/
theorem invalid_symbol_hard_error :
    ∀ (env : Env) (pin : ℤ) (opts : List (String × TermV)) (w a : String),
      adc_unit_from_pin env.adc2Enabled pin = .unit1 →
      (w ∉ ["bit_9", "bit_10", "bit_11", "bit_12"] →
        get_width w = .widthMax ∧
        nif_adc_config_width env pin w = .errTuple (.atom "invalid_width") ∧
        nif_adc_take_reading env pin opts w a =
          .errTuple (.atom "invalid_width")) ∧
      (a ∉ ["db_0", "db_2_5", "db_6", "db_11"] →
        get_attenuation a = .attenMax ∧
        nif_adc_config_channel_attenuation env pin a =
          .errTuple (.atom "invalid_db") ∧
        (get_width w ≠ .widthMax →
          nif_adc_take_reading env pin opts w a =
            .errTuple (.atom "invalid_db"))) := by
  intro env pin opts w a hu
  have hch := get_channel_ne_max_of_unit1 env.adc2Enabled pin hu
  constructor
  · intro hwm
    have hgw := get_width_unmatched w hwm
    refine ⟨hgw, ?_, ?_⟩
    · unfold nif_adc_config_width
      rw [hu, if_neg (show ¬(AdcUnitT.unit1 = .unitMax) by decide),
          if_pos hgw]
    · unfold nif_adc_take_reading
      rw [if_neg hch, if_pos hgw]
  · intro ham
    have hga := get_attenuation_unmatched a ham
    refine ⟨hga, ?_, ?_⟩
    · unfold nif_adc_config_channel_attenuation
      rw [if_neg hch, if_pos hga]
    · intro hwv
      unfold nif_adc_take_reading
      rw [if_neg hch, if_neg hwv, if_pos hga]

/-- Witness for C8: the unmatched symbols bit_13 and db_12 on the valid
pin 32 produce {error, invalid_width} and {error, invalid_db} from
every operation. -/
theorem invalid_symbol_hard_error_witness :
    (get_width "bit_13" = .widthMax ∧
     nif_adc_config_width (mkEnv1 fun _ => 0) 32 "bit_13" =
       .errTuple (.atom "invalid_width") ∧
     nif_adc_take_reading (mkEnv1 fun _ => 0) 32 [] "bit_13" "db_0" =
       .errTuple (.atom "invalid_width")) ∧
    (get_attenuation "db_12" = .attenMax ∧
     nif_adc_config_channel_attenuation (mkEnv1 fun _ => 0) 32 "db_12" =
       .errTuple (.atom "invalid_db") ∧
     nif_adc_take_reading (mkEnv1 fun _ => 0) 32 [] "bit_12" "db_12" =
       .errTuple (.atom "invalid_db")) := by
  have h := invalid_symbol_hard_error (mkEnv1 fun _ => 0) 32 [] "bit_13"
    "db_12" (by decide)
  have h2 := invalid_symbol_hard_error (mkEnv1 fun _ => 0) 32 [] "bit_12"
    "db_12" (by decide)
  refine ⟨h.1 (by decide), ?_⟩
  obtain ⟨hga, hcfg, htr⟩ := h2.2 (by decide)
  exact ⟨hga, hcfg, htr (by decide)⟩

theorem proplist_get_default_cons (k : String) (x : TermV)
    (t : List (String × TermV)) (key : String) (d : TermV) :
    proplist_get_default ((k, x) :: t) key d =
      if k = key then x else proplist_get_default t key d := rfl

theorem reading_marshal_tuple (env : Env) (sv : ℤ) (rawOpt voltOpt : TermV)
    (acc : ℕ) (r v : TermV)
    (h : reading_marshal env sv rawOpt voltOpt acc = .tuple2 r v) :
    ((r = .atom "undefined" ↔ rawOpt ≠ .atom "true") ∧
     (rawOpt = .atom "true" → ∃ z, r = .int z) ∧
     (v = .atom "undefined" ↔ voltOpt ≠ .atom "true") ∧
     (voltOpt = .atom "true" → ∃ z, v = .int z)) := by
  unfold reading_marshal at h
  split at h
  · exact absurd h (by simp)
  · injection h with h1 h2
    subst h1
    subst h2
    refine ⟨?_, ?_, ?_, ?_⟩
    · by_cases hr : rawOpt = .atom "true"
      · rw [if_pos hr]; simp [hr]
      · rw [if_neg hr]; simp [hr]
    · intro hr
      rw [if_pos hr]
      exact ⟨_, rfl⟩
    · by_cases hv : voltOpt = .atom "true"
      · rw [if_pos hv]; simp [hv]
      · rw [if_neg hv]; simp [hv]
    · intro hv
      rw [if_pos hv]
      exact ⟨_, rfl⟩

/-- C9: whenever take_reading returns a result tuple, the raw component
is an integer exactly when the raw option is the atom true (default
false: any other or absent value yields the undefined marker), and
likewise for the voltage component; and an absent samples option
behaves exactly as samples = 64 (DEFAULT_SAMPLES). -/
theorem reading_options_defaults :
    (∀ (env : Env) (pin : ℤ) (opts : List (String × TermV)) (w a : String)
       (r v : TermV),
       nif_adc_take_reading env pin opts w a = .tuple2 r v →
       ((r = .atom "undefined" ↔
           proplist_get_default opts "raw" (.atom "false") ≠ .atom "true") ∧
        (proplist_get_default opts "raw" (.atom "false") = .atom "true" →
           ∃ z, r = .int z) ∧
        (v = .atom "undefined" ↔
           proplist_get_default opts "voltage" (.atom "false") ≠
             .atom "true") ∧
        (proplist_get_default opts "voltage" (.atom "false") = .atom "true" →
           ∃ z, v = .int z))) ∧
    (∀ (env : Env) (pin : ℤ) (opts : List (String × TermV)) (w a : String),
       "samples" ∉ opts.map Prod.fst →
       nif_adc_take_reading env pin opts w a =
         nif_adc_take_reading env pin (("samples", .int 64) :: opts) w a) := by
  constructor
  · intro env pin opts w a r v h
    unfold nif_adc_take_reading at h
    split at h
    · exact absurd h (by simp)
    · split at h
      · exact absurd h (by simp)
      · split at h
        · exact absurd h (by simp)
        · unfold take_reading_core at h
          split at h
          · split at h
            · exact absurd h (by simp)
            · exact reading_marshal_tuple _ _ _ _ _ _ _ h
          · split at h
            · split at h
              · exact absurd h (by simp)
              · exact reading_marshal_tuple _ _ _ _ _ _ _ h
            · exact reading_marshal_tuple _ _ _ _ _ _ _ h
  · intro env pin opts w a habs
    unfold nif_adc_take_reading
    rw [proplist_get_default_absent opts "samples" (.int 64) habs]
    rw [show proplist_get_default (("samples", TermV.int 64) :: opts)
          "samples" (.int 64) = .int 64 by
        rw [proplist_get_default_cons, if_pos rfl]]
    rw [show proplist_get_default (("samples", TermV.int 64) :: opts)
          "raw" (.atom "false") =
        proplist_get_default opts "raw" (.atom "false") by
        rw [proplist_get_default_cons, if_neg (by decide)]]
    rw [show proplist_get_default (("samples", TermV.int 64) :: opts)
          "voltage" (.atom "false") =
        proplist_get_default opts "voltage" (.atom "false") by
        rw [proplist_get_default_cons, if_neg (by decide)]]

/-- Witness for C9: a successful call with only the raw option present
(samples and voltage absent) yields an integer raw component and the
undefined voltage marker, and adding the explicit samples = 64 entry
leaves the result unchanged. -/
theorem reading_options_defaults_witness :
    (((TermV.int 7 : TermV) = .atom "undefined" ↔
        proplist_get_default [("raw", TermV.atom "true")] "raw"
          (.atom "false") ≠ .atom "true") ∧
     (proplist_get_default [("raw", TermV.atom "true")] "raw"
          (.atom "false") = .atom "true" →
        ∃ z, (TermV.int 7 : TermV) = .int z) ∧
     ((TermV.atom "undefined" : TermV) = .atom "undefined" ↔
        proplist_get_default [("raw", TermV.atom "true")] "voltage"
          (.atom "false") ≠ .atom "true") ∧
     (proplist_get_default [("raw", TermV.atom "true")] "voltage"
          (.atom "false") = .atom "true" →
        ∃ z, (TermV.atom "undefined" : TermV) = .int z)) ∧
    nif_adc_take_reading (mkEnv1 fun _ => 7) 32 [("raw", TermV.atom "true")]
        "bit_12" "db_0" =
      nif_adc_take_reading (mkEnv1 fun _ => 7) 32
        (("samples", TermV.int 64) :: [("raw", TermV.atom "true")]) "bit_12"
        "db_0" :=
  ⟨reading_options_defaults.1 (mkEnv1 fun _ => 7) 32
      [("raw", TermV.atom "true")] "bit_12" "db_0" (.int 7)
      (.atom "undefined") (by decide),
   reading_options_defaults.2 (mkEnv1 fun _ => 7) 32
      [("raw", TermV.atom "true")] "bit_12" "db_0" (by decide)⟩

theorem specAggLoop_succ (env : SpecEnv) (res : SpecResource) (wantV : Bool)
    (i rS vS k : ℕ) :
    specAggLoop env res wantV i rS vS (k + 1) =
      match sampleStep (env.unit1Read i) env.cal1 (wantV && res.cal1Active)
          rS vS with
      | .error e => .error e
      | .ok (r1, v1) =>
        if res.unit2Enabled then
          match sampleStep (env.unit2Read i) env.cal2
              (wantV && res.cal2Active) r1 v1 with
          | .error e => .error e
          | .ok (r2, v2) => specAggLoop env res wantV (i + 1) r2 v2 k
        else specAggLoop env res wantV (i + 1) r1 v1 k := rfl

theorem sampleStep_some_conv_ok (conv : ℕ → Option ℕ) (v mv rS vS : ℕ)
    (hc : conv v = some mv) :
    sampleStep (some v) conv true rS vS = .ok (rS + v, vS + mv) := by
  simp [sampleStep, hc]

theorem sampleStep_some_conv_fail (conv : ℕ → Option ℕ) (v rS vS : ℕ)
    (hc : conv v = none) :
    sampleStep (some v) conv true rS vS = .error .calibrationError := by
  simp [sampleStep, hc]

theorem sampleStep_some_noconv (conv : ℕ → Option ℕ) (v rS vS : ℕ) :
    sampleStep (some v) conv false rS vS = .ok (rS + v, vS) := by
  simp [sampleStep]

theorem specAggLoop_conv_success (env : SpecEnv) (res : SpecResource)
    (wantV : Bool) (vals mvs : ℕ → ℕ) (hu2 : res.unit2Enabled = false)
    (hdo : (wantV && res.cal1Active) = true) :
    ∀ (k i rS vS : ℕ),
      (∀ j, j < k → env.unit1Read (i + j) = some (vals (i + j))) →
      (∀ j, j < k → env.cal1 (vals (i + j)) = some (mvs (i + j))) →
      specAggLoop env res wantV i rS vS k =
        .ok (rS + sumFrom vals i k, vS + sumFrom mvs i k) := by
  intro k
  induction k with
  | zero => intro i rS vS _ _; simp [specAggLoop, sumFrom]
  | succ k ih =>
    intro i rS vS hread hconv
    have hr : env.unit1Read i = some (vals i) := by
      simpa using hread 0 (Nat.succ_pos k)
    have hc : env.cal1 (vals i) = some (mvs i) := by
      simpa using hconv 0 (Nat.succ_pos k)
    have hread' : ∀ j, j < k → env.unit1Read (i + 1 + j) = some (vals (i + 1 + j)) := by
      intro j hj
      have h := hread (j + 1) (by omega)
      have he : i + (j + 1) = i + 1 + j := by omega
      rw [he] at h
      exact h
    have hconv' : ∀ j, j < k → env.cal1 (vals (i + 1 + j)) = some (mvs (i + 1 + j)) := by
      intro j hj
      have h := hconv (j + 1) (by omega)
      have he : i + (j + 1) = i + 1 + j := by omega
      rw [he] at h
      exact h
    calc specAggLoop env res wantV i rS vS (k + 1)
        = specAggLoop env res wantV (i + 1) (rS + vals i) (vS + mvs i) k := by
          rw [specAggLoop_succ, hr, hdo,
              sampleStep_some_conv_ok env.cal1 (vals i) (mvs i) rS vS hc, hu2]
          rfl
      _ = .ok (rS + vals i + sumFrom vals (i + 1) k,
               vS + mvs i + sumFrom mvs (i + 1) k) :=
          ih (i + 1) (rS + vals i) (vS + mvs i) hread' hconv'
      _ = .ok (rS + sumFrom vals i (k + 1), vS + sumFrom mvs i (k + 1)) := by
          rw [sumFrom_succ, sumFrom_succ, Nat.add_assoc, Nat.add_assoc]

theorem specAggLoop_noconv (env : SpecEnv) (res : SpecResource)
    (wantV : Bool) (vals : ℕ → ℕ) (hu2 : res.unit2Enabled = false)
    (hdo : (wantV && res.cal1Active) = false) :
    ∀ (k i rS vS : ℕ),
      (∀ j, j < k → env.unit1Read (i + j) = some (vals (i + j))) →
      specAggLoop env res wantV i rS vS k =
        .ok (rS + sumFrom vals i k, vS) := by
  intro k
  induction k with
  | zero => intro i rS vS _; simp [specAggLoop, sumFrom]
  | succ k ih =>
    intro i rS vS hread
    have hr : env.unit1Read i = some (vals i) := by
      simpa using hread 0 (Nat.succ_pos k)
    have hread' : ∀ j, j < k → env.unit1Read (i + 1 + j) = some (vals (i + 1 + j)) := by
      intro j hj
      have h := hread (j + 1) (by omega)
      have he : i + (j + 1) = i + 1 + j := by omega
      rw [he] at h
      exact h
    calc specAggLoop env res wantV i rS vS (k + 1)
        = specAggLoop env res wantV (i + 1) (rS + vals i) vS k := by
          rw [specAggLoop_succ, hr, hdo,
              sampleStep_some_noconv env.cal1 (vals i) rS vS, hu2]
          rfl
      _ = .ok (rS + vals i + sumFrom vals (i + 1) k, vS) :=
          ih (i + 1) (rS + vals i) vS hread'
      _ = .ok (rS + sumFrom vals i (k + 1), vS) := by
          rw [sumFrom_succ, Nat.add_assoc]

theorem specAggLoop_conv_failure (env : SpecEnv) (res : SpecResource)
    (wantV : Bool) (vals : ℕ → ℕ) (hu2 : res.unit2Enabled = false)
    (hdo : (wantV && res.cal1Active) = true) :
    ∀ (k i rS vS : ℕ),
      (∀ j, j < k → env.unit1Read (i + j) = some (vals (i + j))) →
      (∃ j, j < k ∧ env.cal1 (vals (i + j)) = none) →
      specAggLoop env res wantV i rS vS k = .error .calibrationError := by
  intro k
  induction k with
  | zero =>
    intro i rS vS _ hex
    obtain ⟨j, hj, _⟩ := hex
    omega
  | succ k ih =>
    intro i rS vS hread hex
    have hr : env.unit1Read i = some (vals i) := by
      simpa using hread 0 (Nat.succ_pos k)
    have hread' : ∀ j, j < k → env.unit1Read (i + 1 + j) = some (vals (i + 1 + j)) := by
      intro j hj
      have h := hread (j + 1) (by omega)
      have he : i + (j + 1) = i + 1 + j := by omega
      rw [he] at h
      exact h
    obtain ⟨j, hj, hnone⟩ := hex
    cases hcv : env.cal1 (vals i) with
    | none =>
      rw [specAggLoop_succ, hr, hdo,
          sampleStep_some_conv_fail env.cal1 (vals i) rS vS hcv]
    | some mv =>
      have hj0 : j ≠ 0 := by
        intro h0
        rw [h0, Nat.add_zero] at hnone
        rw [hcv] at hnone
        exact Option.noConfusion hnone
      obtain ⟨j', rfl⟩ := Nat.exists_eq_succ_of_ne_zero hj0
      have hnone' : env.cal1 (vals (i + 1 + j')) = none := by
        have he : i + 1 + j' = i + (j' + 1) := by omega
        rw [he]
        exact hnone
      calc specAggLoop env res wantV i rS vS (k + 1)
          = specAggLoop env res wantV (i + 1) (rS + vals i) (vS + mv) k := by
            rw [specAggLoop_succ, hr, hdo,
                sampleStep_some_conv_ok env.cal1 (vals i) mv rS vS hcv, hu2]
            rfl
        _ = .error .calibrationError :=
            ih (i + 1) (rS + vals i) (vS + mv) hread' ⟨j', by omega, hnone'⟩

theorem takeReadingSpec_pos (env : SpecEnv) (res : SpecResource) (n : ℕ)
    (wantRaw wantV : Bool) (hn : 1 ≤ n) :
    takeReadingSpec env res ⟨(n : ℤ), wantRaw, wantV⟩ =
      match specAggLoop env res wantV 0 0 0 n with
      | .error e => .errR e
      | .ok (rawSum, voltSum) =>
        .okR
          (if wantRaw then .int (rawSum / n) else .atom "undefined")
          (if wantV && (res.cal1Active || (res.unit2Enabled && res.cal2Active))
           then .int (voltSum / n) else .atom "undefined") := by
  unfold takeReadingSpec
  rw [if_neg (show ¬((n : ℤ) ≤ 0) by omega), Int.toNat_natCast]

/-- C4 (spec-modelled): in the resource generation's takeReading, when
voltage is requested and Unit1's calibration is active, each individual
raw sample is converted to millivolts inside the sampling loop and
accumulated into the separate voltage sum, and the voltage result is
that sum divided by the sample count; a conversion failure mid-loop
aborts the whole call with CalibrationError and no partial result is
returned. -/
theorem voltage_per_sample_calibration :
    ∀ (env : SpecEnv) (res : SpecResource) (n : ℕ) (vals mvs : ℕ → ℕ)
      (wantRaw : Bool),
      res.cal1Active = true → res.unit2Enabled = false → 1 ≤ n →
      (∀ i, i < n → env.unit1Read i = some (vals i)) →
      ((∀ i, i < n → env.cal1 (vals i) = some (mvs i)) →
        takeReadingSpec env res ⟨(n : ℤ), wantRaw, true⟩ =
          .okR (if wantRaw then .int (sumF vals n / n) else .atom "undefined")
            (.int (sumF mvs n / n))) ∧
      ((∃ i, i < n ∧ env.cal1 (vals i) = none) →
        takeReadingSpec env res ⟨(n : ℤ), wantRaw, true⟩ =
          .errR .calibrationError) := by
  intro env res n vals mvs wantRaw h1 hu2 hn hread
  have hdo : (true && res.cal1Active) = true := by simp [h1]
  constructor
  · intro hconv
    rw [takeReadingSpec_pos env res n wantRaw true hn]
    have hl := specAggLoop_conv_success env res true vals mvs hu2 hdo n 0 0 0
      (fun j hj => by simpa using hread j hj)
      (fun j hj => by simpa using hconv j hj)
    rw [hl]
    simp [sumF, h1]
  · intro hex
    rw [takeReadingSpec_pos env res n wantRaw true hn]
    have hl := specAggLoop_conv_failure env res true vals hu2 hdo n 0 0 0
      (fun j hj => by simpa using hread j hj)
      (by obtain ⟨i, hi, hni⟩ := hex; exact ⟨i, hi, by simpa using hni⟩)
    rw [hl]

/-- Unit1-only resource with active calibration. -/
def calResActive : SpecResource :=
  { channel := 4, cal1Active := true, unit2Enabled := false,
    cal2Active := false }

/-- Mock collaborators: samples 3, 5, 7; conversion doubles the raw
value. -/
def calEnvOk : SpecEnv :=
  { unit1Read := fun i => some ([3, 5, 7].getD i 0)
    unit2Read := fun _ => some 0
    cal1 := fun v => some (2 * v)
    cal2 := fun _ => some 0 }

/-- Mock collaborators: samples 3, 5, 7; the conversion of the second
sample (raw 5) fails. -/
def calEnvFail : SpecEnv :=
  { unit1Read := fun i => some ([3, 5, 7].getD i 0)
    unit2Read := fun _ => some 0
    cal1 := fun v => if v = 5 then none else some (2 * v)
    cal2 := fun _ => some 0 }

/-- Witness for C4: three samples 3, 5, 7 with a doubling conversion
yield raw 5 and voltage 10; the same run with the conversion failing at
sample index 1 aborts with CalibrationError. -/
theorem voltage_per_sample_calibration_witness :
    takeReadingSpec calEnvOk calResActive ⟨3, true, true⟩ =
      .okR (.int 5) (.int 10) ∧
    takeReadingSpec calEnvFail calResActive ⟨3, true, true⟩ =
      .errR .calibrationError := by
  constructor
  · have h := (voltage_per_sample_calibration calEnvOk calResActive 3
      (fun i => [3, 5, 7].getD i 0) (fun i => 2 * [3, 5, 7].getD i 0) true
      rfl rfl (by omega) (fun i _ => rfl)).1 (fun i _ => rfl)
    exact h.trans (by decide)
  · exact (voltage_per_sample_calibration calEnvFail calResActive 3
      (fun i => [3, 5, 7].getD i 0) (fun _ => 0) true
      rfl rfl (by omega) (fun i _ => rfl)).2 ⟨1, by omega, rfl⟩

/-- C7 (spec-modelled): when calibration has degraded to inactive for
the unit, takeReading with voltage requested still succeeds — the
conversion is never attempted (the mock conversion is unconstrained and
may fail everywhere) — and returns the undefined voltage marker for
that unit's contribution instead of an error. -/
theorem calibration_inactive_voltage_undefined :
    ∀ (env : SpecEnv) (res : SpecResource) (n : ℕ) (vals : ℕ → ℕ)
      (wantRaw : Bool),
      res.cal1Active = false → res.unit2Enabled = false → 1 ≤ n →
      (∀ i, i < n → env.unit1Read i = some (vals i)) →
      takeReadingSpec env res ⟨(n : ℤ), wantRaw, true⟩ =
        .okR (if wantRaw then .int (sumF vals n / n) else .atom "undefined")
          (.atom "undefined") := by
  intro env res n vals wantRaw h1 hu2 hn hread
  have hdo : (true && res.cal1Active) = false := by simp [h1]
  rw [takeReadingSpec_pos env res n wantRaw true hn]
  have hl := specAggLoop_noconv env res true vals hu2 hdo n 0 0 0
    (fun j hj => by simpa using hread j hj)
  rw [hl]
  simp [sumF, h1, hu2]

/-- Unit1-only resource whose calibration negotiation degraded to
inactive. -/
def calResInactive : SpecResource :=
  { channel := 4, cal1Active := false, unit2Enabled := false,
    cal2Active := false }

/-- Mock collaborators with no usable calibration: every conversion
would fail, but reads succeed (samples 4 and 6). -/
def calEnvNone : SpecEnv :=
  { unit1Read := fun i => some ([4, 6].getD i 0)
    unit2Read := fun _ => some 0
    cal1 := fun _ => none
    cal2 := fun _ => none }

/-- Witness for C7: with calibration inactive and voltage requested,
the call succeeds with raw 5 and voltage undefined even though every
conversion would fail. -/
theorem calibration_inactive_voltage_undefined_witness :
    takeReadingSpec calEnvNone calResInactive ⟨2, true, true⟩ =
      .okR (.int 5) (.atom "undefined") := by
  have h := calibration_inactive_voltage_undefined calEnvNone calResInactive 2
    (fun i => [4, 6].getD i 0) true rfl rfl (by omega) (fun i _ => rfl)
  exact h.trans (by decide)

theorem countE_dtor_le_one (res : SpecResource) (e : ReleaseEvent) :
    countE e (adc_resource_dtor res) ≤ 1 := by
  obtain ⟨ch, c1, u2, c2⟩ := res
  cases c1 <;> cases u2 <;> cases c2 <;> cases e <;>
    simp [adc_resource_dtor, countE]

/-- Invariant of the refcount machine: the destructor has fired exactly
when the count has reached zero. -/
def RcInv (s : RcState) : Prop := s.fired = if s.rc = 0 then 1 else 0

theorem rcStep_inv (s : RcState) (op : RcOp) (h : RcInv s) :
    RcInv (rcStep s op) := by
  unfold RcInv at h
  cases op with
  | keep =>
    show RcInv (if s.rc = 0 then s else { rc := s.rc + 1, fired := s.fired })
    unfold RcInv
    by_cases h0 : s.rc = 0
    · rw [if_pos h0]; exact h
    · rw [if_neg h0]
      show s.fired = if s.rc + 1 = 0 then 1 else 0
      rw [if_neg (by omega), h, if_neg h0]
  | release =>
    show RcInv (if s.rc = 0 then s
      else { rc := s.rc - 1
             fired := if s.rc = 1 then s.fired + 1 else s.fired })
    unfold RcInv
    by_cases h0 : s.rc = 0
    · rw [if_pos h0]; exact h
    · rw [if_neg h0]
      show (if s.rc = 1 then s.fired + 1 else s.fired) =
        if s.rc - 1 = 0 then 1 else 0
      by_cases h1 : s.rc = 1
      · rw [if_pos h1, if_pos (by omega), h, if_neg h0]
      · rw [if_neg h1, if_neg (by omega), h, if_neg h0]

theorem runRc_inv (ops : List RcOp) : RcInv (runRc ops) := by
  have hgen : ∀ (l : List RcOp) (s : RcState), RcInv s →
      RcInv (l.foldl rcStep s) := by
    intro l
    induction l with
    | nil => intro s hs; exact hs
    | cons op t ih => intro s hs; exact ih (rcStep s op) (rcStep_inv s op hs)
  exact hgen ops { rc := 1, fired := 0 } (by unfold RcInv; simp)

/-- C2 (spec-modelled): for every resource created by a successful
open, the destructor fires at most once over any refcount history, and
exactly once precisely when the count has reached zero; its release
sequence releases the Unit1 driver session exactly once, Unit1's
calibration scheme exactly once when (and only when) its
CalibrationState is active, and likewise for Unit2 when enabled; over
the whole lifetime no release call ever runs more than once. -/
theorem adc_resource_release_once :
    (∀ ops : List RcOp,
       (runRc ops).fired ≤ 1 ∧
       ((runRc ops).rc = 0 ↔ (runRc ops).fired = 1)) ∧
    (∀ (ops : List RcOp) (res : SpecResource) (e : ReleaseEvent),
       countE e (lifecycle_releases ops res) ≤ 1) ∧
    (∀ res : SpecResource,
       countE .delUnit1 (adc_resource_dtor res) = 1 ∧
       countE .delScheme1 (adc_resource_dtor res) =
         (if res.cal1Active then 1 else 0) ∧
       countE .delUnit2 (adc_resource_dtor res) =
         (if res.unit2Enabled then 1 else 0) ∧
       countE .delScheme2 (adc_resource_dtor res) =
         (if res.unit2Enabled && res.cal2Active then 1 else 0)) := by
  refine ⟨?_, ?_, ?_⟩
  · intro ops
    have h := runRc_inv ops
    unfold RcInv at h
    by_cases h0 : (runRc ops).rc = 0
    · rw [if_pos h0] at h
      constructor
      · omega
      · constructor
        · intro _; exact h
        · intro _; exact h0
    · rw [if_neg h0] at h
      constructor
      · omega
      · constructor
        · intro hc; exact absurd hc h0
        · intro hf; omega
  · intro ops res e
    unfold lifecycle_releases
    by_cases h0 : (runRc ops).fired = 0
    · rw [if_pos h0]; simp [countE]
    · rw [if_neg h0]; exact countE_dtor_le_one res e
  · intro res
    obtain ⟨ch, c1, u2, c2⟩ := res
    cases c1 <;> cases u2 <;> cases c2 <;>
      simp [adc_resource_dtor, countE]
